import Mathlib

/-
Verification of the conversation-state trimming and turn-exchange policy
of the health-wellness-chatbot repository (src/app.py).

The core under study:
  * the message trimmer configured at src/app.py:54-59, i.e.
    langchain's trim_messages with strategy="last", max_tokens=200,
    include_system=True, allow_partial=False, and the token counter
      lambda msgs: sum(len(msg.content) // 4 for msg in msgs if hasattr(msg, "content"))
  * call_model at src/app.py:67-77,
  * the streaming accumulation loop of the chat UI at src/app.py:101-109.

The trimming algorithm itself lives in the external library
(langchain_core.messages.utils): for strategy="last" the list is reversed
(with the leading system message pinned in front when include_system is set
and the first message is a SystemMessage), the longest prefix of that
reversed list whose token count is at most max_tokens is kept (scanning
from the full list downward, dropping from the end), and the result is
un-reversed.  The definitions below embed that algorithm with the exact
configuration the repository passes to it.
-/

/-- Message roles: System / Human (HumanMessage) / Assistant (AIMessage). -/
inductive Role where
  | system
  | human
  | ai
  deriving DecidableEq

/-- A message: a role plus content.  content = none models a message object
without a content attribute, which the token counter at src/app.py:57
skips via its hasattr guard; all messages the app itself constructs
carry some content. -/
structure Msg where
  role : Role
  content : Option String
  deriving DecidableEq

/-- HumanMessage(content=s). -/
def mkHuman (s : String) : Msg := ⟨Role.human, some s⟩

/-- AIMessage(content=s). -/
def mkAI (s : String) : Msg := ⟨Role.ai, some s⟩

/-- The fixed system instruction of prompt_template, src/app.py:50. -/
def systemInstruction : Msg :=
  ⟨Role.system, some "You are a helpful, friendly Health and Wellness assistant. Provide accurate and empathetic responses to user queries."⟩

/-- Cost contributed by one message to the token counter of src/app.py:57:
len(msg.content) // 4 when the message has a content attribute
(floor division), nothing otherwise. -/
def msgCost (m : Msg) : Nat :=
  match m.content with
  | some s => s.length / 4
  | none => 0

/-- The token counter of src/app.py:57:
sum(len(msg.content) // 4 for msg in msgs if hasattr(msg, "content")). -/
def token_counter (msgs : List Msg) : Nat := (msgs.map msgCost).sum

/-- Length of the kept prefix: the library scans i = 0, 1, ... and keeps
msgs[:len-i] for the first i with token count at most maxTokens, i.e. the
largest k (at most n) with token_counter (msgs.take k) ≤ maxTokens under
that drop-from-the-end scan (0 when no nonempty prefix fits). -/
def fitLen (maxTokens : Nat) (msgs : List Msg) : Nat → Nat
  | 0 => 0
  | k + 1 =>
    if token_counter (msgs.take (k + 1)) ≤ maxTokens then k + 1
    else fitLen maxTokens msgs k

/-- The library helper selecting the longest prefix within budget
(allow_partial=False, so no message splitting). -/
def firstMaxTokens (maxTokens : Nat) (msgs : List Msg) : List Msg :=
  msgs.take (fitLen maxTokens msgs msgs.length)

/-- The library helper for strategy="last" with include_system=True:
when the first message is a SystemMessage it is pinned in front of the
reversed remainder; the longest within-budget prefix of that list is
kept and then un-reversed (reversed_[:1] + reversed_[1:][::-1]). -/
def lastMaxTokens (maxTokens : Nat) (msgs : List Msg) : List Msg :=
  match msgs with
  | [] => []
  | m0 :: rest =>
    if m0.role = Role.system then
      match firstMaxTokens maxTokens (m0 :: rest.reverse) with
      | [] => []
      | k0 :: krest => k0 :: krest.reverse
    else
      (firstMaxTokens maxTokens ((m0 :: rest).reverse)).reverse

/-- The trimmer of src/app.py:54-59: strategy="last", max_tokens=200,
include_system=True, token counter as above. -/
def trimmer200 (msgs : List Msg) : List Msg := lastMaxTokens 200 msgs

/-- Placeholder removal, src/app.py:70-71: if messages is nonempty and its
last element is an AIMessage, drop that last element. -/
def removeTrailingAI (msgs : List Msg) : List Msg :=
  match msgs.getLast? with
  | some m => if m.role = Role.ai then msgs.dropLast else msgs
  | none => msgs

/-- The prompt actually passed to model.invoke, src/app.py:72-74:
the trimmed history (prompt_template is defined at src/app.py:49-52 but
never applied, so no system message is prepended). -/
def prompt_messages (state : List Msg) : List Msg :=
  trimmer200 (removeTrailingAI state)

/-- call_model, src/app.py:67-77.  The remote invocation model.invoke is
abstracted as an oracle returning either the completion's content
(ChatOpenAI.invoke returns an AIMessage) or the exception text; on
success the result is the placeholder-stripped history plus the
completion, on failure the original state plus an AIMessage whose
content is the formatted error string. -/
def call_model (oracle : List Msg → Except String String) (state : List Msg) : List Msg :=
  match oracle (prompt_messages state) with
  | Except.ok completion => removeTrailingAI state ++ [mkAI completion]
  | Except.error e => state ++ [mkAI ("❌ Error: " ++ e)]

/-- The streaming accumulation loop, src/app.py:101-107: starting from the
empty string, each streamed chunk that is an AIMessage appends its
content to the accumulator; other chunks are ignored. -/
def stream_accum (chunks : List Msg) : String :=
  chunks.foldl (fun acc c => if c.role = Role.ai then acc ++ c.content.getD "" else acc) ""

/-- The finalized assistant turn appended to the chat history,
src/app.py:109: AIMessage(content=full_response). -/
def chat_final_turn (chunks : List Msg) : Msg := mkAI (stream_accum chunks)

/-- Decidable shorthand for C10: content shorter than four characters, or
no content attribute at all. -/
def negligibleContent (m : Msg) : Bool :=
  match m.content with
  | some s => s.length < 4
  | none => true

/-- A concrete 804-character content whose cost 804 // 4 = 201 exceeds the
budget of 200 on its own. -/
def bigStr : String := String.mk (List.replicate 804 'a')

/- Helper lemmas about the token counter and the trimmer. -/

theorem bigStr_len : bigStr.length = 804 := by
  show (List.replicate 804 'a').length = 804
  rw [List.length_replicate]

theorem bigStr_cost : msgCost (mkHuman bigStr) = 201 := by
  show bigStr.length / 4 = 201
  rw [bigStr_len]

theorem token_counter_nil : token_counter [] = 0 := rfl

theorem token_counter_cons (m : Msg) (l : List Msg) :
    token_counter (m :: l) = msgCost m + token_counter l := by
  simp [token_counter]

theorem token_counter_reverse (l : List Msg) :
    token_counter l.reverse = token_counter l := by
  simp [token_counter, List.map_reverse, List.sum_reverse]

theorem fitLen_fits (b : Nat) (msgs : List Msg) (n : Nat) :
    token_counter (msgs.take (fitLen b msgs n)) ≤ b := by
  induction n with
  | zero => simp [fitLen, token_counter]
  | succ k ih =>
    rw [fitLen]
    split
    case isTrue h => exact h
    case isFalse h => exact ih

theorem fitLen_self (b : Nat) (msgs : List Msg) (h : token_counter msgs ≤ b) :
    fitLen b msgs msgs.length = msgs.length := by
  cases hl : msgs.length with
  | zero => simp [fitLen]
  | succ k =>
    rw [fitLen]
    rw [← hl, List.take_length]
    simp [h]

theorem firstMaxTokens_fits (b : Nat) (msgs : List Msg) :
    token_counter (firstMaxTokens b msgs) ≤ b :=
  fitLen_fits b msgs msgs.length

theorem firstMaxTokens_self (b : Nat) (msgs : List Msg) (h : token_counter msgs ≤ b) :
    firstMaxTokens b msgs = msgs := by
  unfold firstMaxTokens
  rw [fitLen_self b msgs h, List.take_length]

theorem fitLen_head_big (b : Nat) (m : Msg) (rest : List Msg) (hm : b < msgCost m) :
    ∀ n, fitLen b (m :: rest) n = 0 := by
  intro n
  induction n with
  | zero => rfl
  | succ k ih =>
    rw [fitLen, List.take_succ_cons, token_counter_cons]
    have : ¬ (msgCost m + token_counter (rest.take k) ≤ b) := by omega
    simp only [this, if_false]
    exact ih

theorem firstMaxTokens_head_big (b : Nat) (m : Msg) (rest : List Msg)
    (hm : b < msgCost m) : firstMaxTokens b (m :: rest) = [] := by
  unfold firstMaxTokens
  rw [fitLen_head_big b m rest hm]
  rfl

theorem lastMaxTokens_fits (b : Nat) (msgs : List Msg) :
    token_counter (lastMaxTokens b msgs) ≤ b := by
  cases msgs with
  | nil => simp [lastMaxTokens, token_counter]
  | cons m0 rest =>
    rw [lastMaxTokens]
    split
    case isTrue hsys =>
      cases hk : firstMaxTokens b (m0 :: rest.reverse) with
      | nil => simp [token_counter]
      | cons k0 krest =>
        have hfit := firstMaxTokens_fits b (m0 :: rest.reverse)
        rw [hk, token_counter_cons] at hfit
        rw [token_counter_cons, token_counter_reverse]
        exact hfit
    case isFalse hsys =>
      rw [token_counter_reverse]
      exact firstMaxTokens_fits b ((m0 :: rest).reverse)

theorem lastMaxTokens_self (b : Nat) (msgs : List Msg) (h : token_counter msgs ≤ b) :
    lastMaxTokens b msgs = msgs := by
  cases msgs with
  | nil => rfl
  | cons m0 rest =>
    rw [lastMaxTokens]
    split
    case isTrue hsys =>
      have hrev : token_counter (m0 :: rest.reverse) ≤ b := by
        rw [token_counter_cons, token_counter_reverse]
        rw [token_counter_cons] at h
        exact h
      rw [firstMaxTokens_self b (m0 :: rest.reverse) hrev]
      simp
    case isFalse hsys =>
      have hrev : token_counter ((m0 :: rest).reverse) ≤ b := by
        rw [token_counter_reverse]
        exact h
      rw [firstMaxTokens_self b ((m0 :: rest).reverse) hrev]
      simp

theorem removeTrailingAI_concat_ai (ys : List Msg) (m : Msg) (hm : m.role = Role.ai) :
    removeTrailingAI (ys ++ [m]) = ys := by
  unfold removeTrailingAI
  rw [List.getLast?_concat]
  simp [hm]

theorem removeTrailingAI_of_last_not_ai (msgs : List Msg)
    (h : ∀ m, msgs.getLast? = some m → m.role ≠ Role.ai) :
    removeTrailingAI msgs = msgs := by
  unfold removeTrailingAI
  cases hl : msgs.getLast? with
  | none => rfl
  | some m => simp [h m hl]

theorem lastMaxTokens_concat_big (b : Nat) (ys : List Msg) (m : Msg)
    (h0 : ∀ m0, (ys ++ [m]).head? = some m0 → m0.role ≠ Role.system)
    (hm : b < msgCost m) : lastMaxTokens b (ys ++ [m]) = [] := by
  cases ys with
  | nil =>
    rw [List.nil_append, lastMaxTokens]
    rw [if_neg (h0 m rfl)]
    simp only [List.reverse_cons, List.reverse_nil, List.nil_append]
    rw [firstMaxTokens_head_big b m [] hm]
    rfl
  | cons y ys' =>
    rw [List.cons_append, lastMaxTokens]
    rw [if_neg (h0 y rfl)]
    have hrev : (y :: (ys' ++ [m])).reverse = m :: (ys'.reverse ++ [y]) := by
      simp
    rw [hrev, firstMaxTokens_head_big b m (ys'.reverse ++ [y]) hm]
    rfl

theorem msgCost_eq_zero_of_negligible (m : Msg) (h : negligibleContent m = true) :
    msgCost m = 0 := by
  obtain ⟨r, c⟩ := m
  cases c with
  | none => rfl
  | some s =>
    simp only [negligibleContent, decide_eq_true_eq] at h
    exact Nat.div_eq_of_lt h

theorem stream_accum_map_mkAI (fragments : List String) :
    stream_accum (fragments.map mkAI) = String.join fragments := by
  have key : ∀ (l : List String) (acc : String),
      (l.map mkAI).foldl
        (fun acc c => if c.role = Role.ai then acc ++ c.content.getD "" else acc) acc
        = l.foldl (fun r s => r ++ s) acc := by
    intro l
    induction l with
    | nil => intro acc; rfl
    | cons f fs ih =>
      intro acc
      simp only [List.map_cons, List.foldl_cons]
      have hstep : (if (mkAI f).role = Role.ai then acc ++ (mkAI f).content.getD "" else acc)
          = acc ++ f := rfl
      rw [hstep]
      exact ih (acc ++ f)
  exact key fragments ""

/- Claim theorems. -/

/-- C1 (counterexample): the claimed never-empty edge case does not hold.
For a history consisting of a single Human Turn whose cost 201 exceeds the
budget 200, the trimmer returns the empty window, not the system
instruction plus that Turn. -/
theorem C1_counterexample :
    200 < msgCost (mkHuman bigStr) ∧
    trimmer200 [mkHuman bigStr] = [] ∧
    trimmer200 [mkHuman bigStr] ≠ [systemInstruction, mkHuman bigStr] := by
  have hcost : (200 : Nat) < msgCost (mkHuman bigStr) := by
    rw [bigStr_cost]
    omega
  have htrim : trimmer200 [mkHuman bigStr] = [] := by
    have hconc := lastMaxTokens_concat_big 200 [] (mkHuman bigStr) ?_ hcost
    · rw [List.nil_append] at hconc
      rw [trimmer200]
      exact hconc
    · intro m0 h0
      rw [List.nil_append, List.head?_cons, Option.some_inj] at h0
      rw [← h0]
      intro hr
      exact absurd hr (by decide)
  refine ⟨hcost, htrim, ?_⟩
  rw [htrim]
  intro hfalse
  exact List.noConfusion hfalse

/-- C1 (amended): for every history the window selected by the trimmer has
total cost at most the budget 200; there is no never-empty exception: for a
history (not starting with a system message) whose most recent Turn alone
exceeds the budget, the trimmer returns the empty window. -/
theorem C1_amended_budget :
    (∀ msgs : List Msg, token_counter (trimmer200 msgs) ≤ 200) ∧
    (∀ (ys : List Msg) (m : Msg),
      (∀ m0, (ys ++ [m]).head? = some m0 → m0.role ≠ Role.system) →
      200 < msgCost m → trimmer200 (ys ++ [m]) = []) :=
  ⟨fun msgs => lastMaxTokens_fits 200 msgs,
   fun ys m h0 hm => lastMaxTokens_concat_big 200 ys m h0 hm⟩

/-- C1 witness: the budget bound evaluated on a concrete history, and the
empty-window case evaluated on a concrete oversize Turn. -/
theorem C1_amended_budget_witness :
    token_counter (trimmer200 [mkHuman "hi"]) ≤ 200 ∧
    trimmer200 ([mkHuman "hi"] ++ [mkHuman bigStr]) = [] := by
  constructor
  · exact C1_amended_budget.1 [mkHuman "hi"]
  · apply C1_amended_budget.2 [mkHuman "hi"] (mkHuman bigStr)
    · intro m0 h0
      rw [List.cons_append, List.head?_cons, Option.some_inj] at h0
      rw [← h0]
      decide
    · rw [bigStr_cost]
      omega

/-- C2: the prompt passed to the remote model does not begin with the fixed
system instruction: prompt_template (src/app.py:49-52) is never applied, so
for the history [Human "hi"] the prompt is exactly [Human "hi"] and
contains no system-role message at all. -/
theorem C2_prompt_has_no_system :
    prompt_messages [mkHuman "hi"] = [mkHuman "hi"] ∧
    (prompt_messages [mkHuman "hi"]).head? ≠ some systemInstruction ∧
    ∀ m ∈ prompt_messages [mkHuman "hi"], m.role ≠ Role.system := by
  decide

/-- C3 (counterexample): the Turn [Human "hi"] (content length 2) is charged
cost 0 = 2 // 4 by the token counter, whereas ceil(2 / 4) = 1. -/
theorem C3_counterexample :
    token_counter [mkHuman "hi"] = 0 ∧
    ("hi".length + 3) / 4 = 1 ∧
    token_counter [mkHuman "hi"] ≠ ("hi".length + 3) / 4 := by
  decide

/-- C3 (amended): the cost charged to a Turn by the token counter equals
the length of its content divided by four rounded DOWN (floor division,
len(content) // 4), not rounded up. -/
theorem C3_floor_cost (m : Msg) (s : String) (h : m.content = some s) :
    token_counter [m] = s.length / 4 := by
  simp [token_counter, msgCost, h]

/-- C3 witness: floor cost evaluated on the Turn Human "hello". -/
theorem C3_floor_cost_witness : token_counter [mkHuman "hello"] = "hello".length / 4 :=
  C3_floor_cost (mkHuman "hello") "hello" rfl

/-- C4: if the last Turn of the history is an Assistant Turn, exactly that
one trailing Turn is discarded before trimming; if the last Turn is not an
Assistant Turn, no Turn is removed. -/
theorem C4_placeholder_removal :
    (∀ (ys : List Msg) (m : Msg), m.role = Role.ai →
      removeTrailingAI (ys ++ [m]) = ys) ∧
    (∀ msgs : List Msg, (∀ m, msgs.getLast? = some m → m.role ≠ Role.ai) →
      removeTrailingAI msgs = msgs) :=
  ⟨removeTrailingAI_concat_ai, removeTrailingAI_of_last_not_ai⟩

/-- C4 witness: placeholder removal evaluated on the spec's example
[Human "...", Assistant "stale"] and on [Human "hi"]. -/
theorem C4_placeholder_removal_witness :
    removeTrailingAI ([mkHuman "..."] ++ [mkAI "stale"]) = [mkHuman "..."] ∧
    removeTrailingAI [mkHuman "hi"] = [mkHuman "hi"] := by
  constructor
  · exact C4_placeholder_removal.1 [mkHuman "..."] (mkAI "stale") rfl
  · apply C4_placeholder_removal.2 [mkHuman "hi"]
    intro m hm
    rw [List.getLast?_singleton, Option.some_inj] at hm
    rw [← hm]
    decide

/-- C5: if the remote invocation raises, call_model still returns, the
result is the input history plus one terminal Assistant Turn, and that
Turn's content contains the fixed marker "Error:". -/
theorem C5_fail_soft (oracle : List Msg → Except String String)
    (state : List Msg) (e : String)
    (h : oracle (prompt_messages state) = Except.error e) :
    ∃ pre post,
      call_model oracle state = state ++ [mkAI (pre ++ "Error:" ++ post)] ∧
      (call_model oracle state).getLast? = some (mkAI (pre ++ "Error:" ++ post)) := by
  have heq : "❌ Error: " ++ e = "❌ " ++ "Error:" ++ (" " ++ e) := by
    rw [← String.append_assoc]
    rfl
  have hcall : call_model oracle state = state ++ [mkAI ("❌ Error: " ++ e)] := by
    unfold call_model
    rw [h]
  refine ⟨"❌ ", " " ++ e, ?_, ?_⟩
  · rw [hcall, heq]
  · rw [hcall, heq, List.getLast?_concat]

/-- C5 witness: the fail-soft result evaluated for a concrete raising
oracle and the history [Human "hi"]. -/
theorem C5_fail_soft_witness :
    ∃ pre post,
      call_model (fun _ => Except.error "boom") [mkHuman "hi"]
        = [mkHuman "hi"] ++ [mkAI (pre ++ "Error:" ++ post)] ∧
      (call_model (fun _ => Except.error "boom") [mkHuman "hi"]).getLast?
        = some (mkAI (pre ++ "Error:" ++ post)) :=
  C5_fail_soft (fun _ => Except.error "boom") [mkHuman "hi"] "boom" rfl

/-- C6: for a history ending in a non-Assistant Turn, a successful
invocation returns the input history unchanged and in order with exactly
one new Assistant Turn appended. -/
theorem C6_history_preserved (oracle : List Msg → Except String String)
    (state : List Msg) (c : String)
    (h1 : ∀ m, state.getLast? = some m → m.role ≠ Role.ai)
    (h2 : oracle (prompt_messages state) = Except.ok c) :
    call_model oracle state = state ++ [mkAI c] := by
  unfold call_model
  rw [h2, removeTrailingAI_of_last_not_ai state h1]

/-- C6 witness: the frame property evaluated for a concrete succeeding
oracle and the history [Human "hi"]. -/
theorem C6_history_preserved_witness :
    call_model (fun _ => Except.ok "Hello!") [mkHuman "hi"]
      = [mkHuman "hi"] ++ [mkAI "Hello!"] := by
  apply C6_history_preserved (fun _ => Except.ok "Hello!") [mkHuman "hi"] "Hello!"
  · intro m hm
    rw [List.getLast?_singleton, Option.some_inj] at hm
    rw [← hm]
    decide
  · rfl

/-- C7: the finalized Assistant Turn's content is exactly the concatenation
of all streamed fragments in arrival order: no fragment is reordered, lost
or duplicated. -/
theorem C7_stream_concat (fragments : List String) :
    stream_accum (fragments.map mkAI) = String.join fragments ∧
    chat_final_turn (fragments.map mkAI) = mkAI (String.join fragments) := by
  refine ⟨stream_accum_map_mkAI fragments, ?_⟩
  unfold chat_final_turn
  rw [stream_accum_map_mkAI fragments]

/-- C8: the trimmer is idempotent: re-trimming an already-trimmed window
with the same budget yields the same window. -/
theorem C8_trim_idempotent (msgs : List Msg) :
    trimmer200 (trimmer200 msgs) = trimmer200 msgs :=
  lastMaxTokens_self 200 (lastMaxTokens 200 msgs) (lastMaxTokens_fits 200 msgs)

/-- C9: on the error path call_model appends the error Turn to the original
state without placeholder removal: a trailing Assistant Turn is retained
and followed by the error Turn. -/
theorem C9_error_keeps_trailing (oracle : List Msg → Except String String)
    (ys : List Msg) (m : Msg) (e : String)
    (_h1 : m.role = Role.ai)
    (h2 : oracle (prompt_messages (ys ++ [m])) = Except.error e) :
    call_model oracle (ys ++ [m]) = ys ++ [m] ++ [mkAI ("❌ Error: " ++ e)] := by
  unfold call_model
  rw [h2]

/-- C9 witness: the error path evaluated on the concrete history
[Human "q", Assistant "stale"] with a concrete raising oracle. -/
theorem C9_error_keeps_trailing_witness :
    call_model (fun _ => Except.error "boom") ([mkHuman "q"] ++ [mkAI "stale"])
      = [mkHuman "q"] ++ [mkAI "stale"] ++ [mkAI ("❌ Error: " ++ "boom")] :=
  C9_error_keeps_trailing (fun _ => Except.error "boom") [mkHuman "q"] (mkAI "stale")
    "boom" rfl rfl

/-- C10: every Turn whose content is shorter than four characters, and
every message without a content attribute, is charged cost zero; a history
made solely of such messages has total cost zero and is kept in full by
the trimmer. -/
theorem C10_negligible_zero_cost (msgs : List Msg)
    (h : ∀ m ∈ msgs, negligibleContent m = true) :
    token_counter msgs = 0 ∧ trimmer200 msgs = msgs := by
  have hz : token_counter msgs = 0 := by
    unfold token_counter
    apply List.sum_eq_zero
    intro x hx
    obtain ⟨m, hm, rfl⟩ := List.mem_map.mp hx
    exact msgCost_eq_zero_of_negligible m (h m hm)
  refine ⟨hz, lastMaxTokens_self 200 msgs ?_⟩
  rw [hz]
  omega

/-- C10 witness: zero cost and full retention evaluated on a history of a
short Human Turn, a message without content, and a short Assistant Turn. -/
theorem C10_negligible_zero_cost_witness :
    token_counter [mkHuman "hi", ⟨Role.human, none⟩, mkAI "ok"] = 0 ∧
    trimmer200 [mkHuman "hi", ⟨Role.human, none⟩, mkAI "ok"]
      = [mkHuman "hi", ⟨Role.human, none⟩, mkAI "ok"] :=
  C10_negligible_zero_cost [mkHuman "hi", ⟨Role.human, none⟩, mkAI "ok"] (by decide)
